import Mathlib

/-!
Shallow embedding of the pype9 network-flattening pass
(src/pype9/base/network/base.py, class Network) together with the
parts of the nineml object model that the pass manipulates.  The
embedding keeps the source structure: flattenSynapse embeds
Network._flatten_synapse, processReceiving / processSending /
flattenPops embed the body of Network._flatten_to_arrays_and_conns,
and extractLiteral embeds Network._extract_connection_property_sets.
-/

namespace Pype9

/-- Reserved role name of the cell dynamics sub-component
(Network.cell_dyn_name in the source). -/
def cell_dyn_name : String := "cell"

/-- Models the nineml helper append_namespace: qualifies a port or
parameter name with a sub-component name using a fixed separator. -/
def append_namespace (n ns : String) : String := n ++ "__" ++ ns

/-- A port connection of a projection: sender and receiver role, send
and receive port names and the communication kind, which the source
reads from pc.communicates, either event or analog. -/
structure PortConnection where
  sender_role : String
  receiver_role : String
  send_port : String
  receive_port : String
  communicates : String
deriving DecidableEq, Repr

/-- A port exposure, models nineml BasePortExposure.from_port: a pair
of sub-component name and port name. -/
structure Exposure where
  component : String
  port : String
deriving DecidableEq, Repr

/-- Association-list lookup keyed by strings; models a Python
dictionary read. -/
def alookup {β : Type} (k : String) : List (String × β) → Option β
  | [] => none
  | p :: t => if p.1 = k then some p.2 else alookup k t

/-- Models the nineml port-connection helper expose_ports: one
exposure for each endpoint of the connection whose role appears in the
role-to-name map, named after the mapped sub-component. -/
def exposePorts (m : List (String × String)) (pc : PortConnection) : List Exposure :=
  (match alookup pc.sender_role m with
   | some n => [⟨n, pc.send_port⟩]
   | none => []) ++
  (match alookup pc.receiver_role m with
   | some n => [⟨n, pc.receive_port⟩]
   | none => [])

/-- Models assign_roles with port_namespaces: the ports of endpoints
whose role appears in the map are namespaced by the mapped
sub-component name, other ports are left unchanged. -/
def assignPortNamespaces (m : List (String × String)) (pc : PortConnection) : PortConnection :=
  { pc with
    send_port := match alookup pc.sender_role m with
      | some n => append_namespace pc.send_port n
      | none => pc.send_port,
    receive_port := match alookup pc.receiver_role m with
      | some n => append_namespace pc.receive_port n
      | none => pc.receive_port }

/-- A port connection between named sub-components of a
MultiDynamics, as produced by assign_roles with a name_map. -/
structure LocalConn where
  sender_name : String
  receiver_name : String
  send_port : String
  receive_port : String
  communicates : String
deriving DecidableEq, Repr

/-- Models assign_roles with a name_map: replaces the roles of a
role-based port connection by the mapped sub-component names. -/
def assignRoles (m : List (String × String)) (pc : PortConnection) : LocalConn :=
  { sender_name := (alookup pc.sender_role m).getD pc.sender_role,
    receiver_name := (alookup pc.receiver_role m).getD pc.receiver_role,
    send_port := pc.send_port,
    receive_port := pc.receive_port,
    communicates := pc.communicates }

/-- An event-triggered transition of a dynamics class: its source
event port and the set of parameter names transitively required by its
state assignments, the latter modelling the result of the nineml query
required_for applied to the state assignments. -/
structure OnEvent where
  src_port_name : String
  required_params : List String
deriving DecidableEq, Repr

/-- The slice of a nineml dynamics component class read by the pass:
its parameter names, the answer of the is_linear query, the parameter
names transitively required by time derivatives and on-conditions
(modelling required_for over those items), and its event-triggered
transitions. -/
structure ComponentClass where
  parameters : List String
  linear : Bool
  td_oc_required : List String
  on_events : List OnEvent
deriving DecidableEq, Repr

/-- A property of a dynamics: its name, whether its value is a nineml
SingleValue, and its quantity. -/
structure Property where
  name : String
  single : Bool
  quantity : String
deriving DecidableEq, Repr

/-- A nineml DynamicsProperties: a component class with property
values. -/
structure DynamicsProperties where
  name : String
  component_class : ComponentClass
  properties : List Property
deriving DecidableEq, Repr

/-- Namespaces every name appearing in a component class by a
sub-component name; part of the model of the nineml MultiDynamics
class derivation. -/
def nsClass (ns : String) (c : ComponentClass) : ComponentClass :=
  { parameters := c.parameters.map (fun p => append_namespace p ns),
    linear := c.linear,
    td_oc_required := c.td_oc_required.map (fun p => append_namespace p ns),
    on_events := c.on_events.map (fun oe =>
      ⟨append_namespace oe.src_port_name ns,
       oe.required_params.map (fun p => append_namespace p ns)⟩) }

/-- Merge of two component classes; the composite is linear exactly
when both parts are.  Part of the model of the nineml MultiDynamics
class derivation. -/
def mergeClass (a b : ComponentClass) : ComponentClass :=
  { parameters := a.parameters ++ b.parameters,
    linear := a.linear && b.linear,
    td_oc_required := a.td_oc_required ++ b.td_oc_required,
    on_events := a.on_events ++ b.on_events }

/-- The empty component class, neutral element of mergeClass. -/
def emptyClass : ComponentClass := ⟨[], true, [], []⟩

/-- The flattened synapse produced by Network._flatten_synapse: a
MultiDynamicsProperties with the response and plasticity dynamics as
sub-components. -/
structure FlatSynapse where
  name : String
  sub_components : List (String × DynamicsProperties)
  port_connections : List LocalConn
  port_exposures : List Exposure
deriving DecidableEq, Repr

/-- Models the component class a nineml MultiDynamicsProperties
derives from its sub-components: each part namespaced by its role name
and merged. -/
def FlatSynapse.componentClass (s : FlatSynapse) : ComponentClass :=
  (s.sub_components.map (fun sc => nsClass sc.1 sc.2.component_class)).foldr mergeClass emptyClass

/-- Models the namespaced property list a nineml
MultiDynamicsProperties derives from its sub-components. -/
def FlatSynapse.properties (s : FlatSynapse) : List Property :=
  s.sub_components.flatMap (fun sc =>
    sc.2.properties.map (fun p => { p with name := append_namespace p.name sc.1 }))

/-- The view of a dynamics-properties object read by
Network._extract_connection_property_sets. -/
structure SynDynProps where
  component_class : ComponentClass
  properties : List Property
deriving DecidableEq, Repr

/-- The dynamics-properties view of a flattened synapse. -/
def FlatSynapse.toProps (s : FlatSynapse) : SynDynProps :=
  ⟨s.componentClass, s.properties⟩

/-- Models dynamics_properties.property(name).quantity. -/
def SynDynProps.quantity (dp : SynDynProps) (n : String) : String :=
  ((dp.properties.find? (fun p => decide (p.name = n))).map Property.quantity).getD ""

/-- Reference to a pre- or post-synaptic population or selection, the
shape the source reads from projection.pre and projection.post. -/
structure PopRef where
  name : String
  isSelection : Bool
  populations : List String
deriving DecidableEq, Repr

/-- A delay quantity with its unit. -/
structure Delay where
  val : Int
  unit : String
deriving DecidableEq, Repr

/-- The delay 0.0 * un.s used by the source for reverse connection
groups. -/
def zeroDelay : Delay := ⟨0, "s"⟩

/-- A connectivity rule; InversePyNNConnectivity wrapping is modelled
by the inverse constructor. -/
inductive Connectivity where
  | rule : String → Connectivity
  | inverse : Connectivity → Connectivity
deriving DecidableEq, Repr

/-- A nineml projection as read by the pass. -/
structure Projection where
  name : String
  pre : PopRef
  post : PopRef
  connectivity : Connectivity
  delay : Delay
  response : DynamicsProperties
  plasticity : DynamicsProperties
  port_connections : List PortConnection
deriving DecidableEq, Repr

/-- The fixed role-to-name map of Network._flatten_synapse. -/
def synRole2name : List (String × String) := [("response", "psr"), ("plasticity", "pls")]

/-- Whether a role is one of the two synapse-internal roles. -/
def isSynRole (r : String) : Bool := decide (r = "response") || decide (r = "plasticity")

/-- Whether a role is one of the two cell-side roles. -/
def isCellRole (r : String) : Bool := decide (r = "pre") || decide (r = "post")

/-- The syn_internal_conns of Network._flatten_synapse: connections
with both endpoints in response or plasticity, localized to the psr
and pls sub-component names. -/
def internalConns (proj : Projection) : List LocalConn :=
  (proj.port_connections.filter (fun pc => isSynRole pc.sender_role && isSynRole pc.receiver_role)).map
    (fun pc =>
      ⟨(alookup pc.sender_role synRole2name).getD pc.sender_role,
       (alookup pc.receiver_role synRole2name).getD pc.receiver_role,
       pc.send_port, pc.receive_port, pc.communicates⟩)

/-- The receive_conns of Network._flatten_synapse. -/
def receiveConns (proj : Projection) : List PortConnection :=
  proj.port_connections.filter (fun pc => isCellRole pc.sender_role && isSynRole pc.receiver_role)

/-- The send_conns of Network._flatten_synapse. -/
def sendConns (proj : Projection) : List PortConnection :=
  proj.port_connections.filter (fun pc => isSynRole pc.sender_role && isCellRole pc.receiver_role)

/-- The pass-through connections of Network._flatten_synapse: both
endpoints pre or post. -/
def passConns (proj : Projection) : List PortConnection :=
  proj.port_connections.filter (fun pc => isCellRole pc.sender_role && isCellRole pc.receiver_role)

/-- The syn_exps of Network._flatten_synapse: exposures for the send
class followed by exposures for the receive class. -/
def synExps (proj : Projection) : List Exposure :=
  (sendConns proj).map (fun pc =>
    ⟨(alookup pc.sender_role synRole2name).getD pc.sender_role, pc.send_port⟩) ++
  (receiveConns proj).map (fun pc =>
    ⟨(alookup pc.receiver_role synRole2name).getD pc.receiver_role, pc.receive_port⟩)

/-- Embedding of Network._flatten_synapse: merges the response and
plasticity dynamics of a projection into one synapse
MultiDynamicsProperties and rewrites the port connection list of the
projection accordingly. -/
def flattenSynapse (proj : Projection) : FlatSynapse × List PortConnection :=
  (⟨proj.name ++ "_syn",
    [("psr", proj.response), ("pls", proj.plasticity)],
    internalConns proj,
    synExps proj⟩,
   (receiveConns proj).map (fun pc =>
      { pc with
        receiver_role := "synapse",
        receive_port := append_namespace pc.receive_port
          ((alookup pc.receiver_role synRole2name).getD pc.receiver_role) }) ++
   (sendConns proj).map (fun pc =>
      { pc with
        sender_role := "synapse",
        send_port := append_namespace pc.send_port
          ((alookup pc.sender_role synRole2name).getD pc.sender_role) }) ++
   passConns proj)

/-!
Embedding of Network._extract_connection_property_sets.  The source
builds varying_params as a Python set of nineml Parameter objects
(component_class.parameter(p.name)) while not_permitted is a set of
plain name strings (p.name).  A Parameter object and a string are
never equal under Python set membership, so the two are embedded as
distinct constructors of one value type, mirroring the runtime
contents of those sets.
-/

/-- A value held by the Python sets of the extractor: either a nineml
Parameter object, identified by its name, or a plain name string. -/
inductive PyVal where
  | paramObj : String → PyVal
  | strVal : String → PyVal
deriving DecidableEq, Repr

/-- The name carried by a set value. -/
def PyVal.pname : PyVal → String
  | .paramObj s => s
  | .strVal s => s

/-- List membership as a boolean, used to model Python set
membership. -/
def elemD {α : Type} [DecidableEq α] (x : α) : List α → Bool
  | [] => false
  | y :: t => if y = x then true else elemD x t

/-- Union of two lists modelling a Python set union. -/
def listUnion {α : Type} [DecidableEq α] (a b : List α) : List α :=
  a ++ b.filter (fun x => !(elemD x a))

/-- Models conn_params[k] |= add on a defaultdict of sets: unions into
an existing entry or creates the entry, including when add is
empty. -/
def updConnParams (m : List (String × List PyVal)) (k : String) (add : List PyVal) :
    List (String × List PyVal) :=
  match alookup k m with
  | some _ => m.map (fun p => if p.1 = k then (p.1, listUnion p.2 add) else p)
  | none => m ++ [(k, add)]

/-- A namespaced property carried by a connection property set. -/
structure NSProp where
  name : String
  quantity : String
deriving DecidableEq, Repr

/-- A ConnectionPropertySet: an event port name together with the
namespaced properties riding on connections to that port. -/
structure ConnectionPropertySet where
  port : String
  properties : List NSProp
deriving DecidableEq, Repr

/-- The varying_params set of the extractor: one Parameter object per
property whose value is not a SingleValue. -/
def varyingParams (dp : SynDynProps) : List PyVal :=
  (dp.properties.filter (fun p => !p.single)).map (fun p => PyVal.paramObj p.name)

/-- The conn_params defaultdict of the extractor after the on-event
loop: for each event-triggered transition, the intersection of
varying_params with the Parameter objects required by its state
assignments, grouped by the source event port. -/
def connParamsOf (dp : SynDynProps) : List (String × List PyVal) :=
  dp.component_class.on_events.foldl
    (fun m oe => updConnParams m oe.src_port_name
      ((varyingParams dp).filter (fun v => elemD v (oe.required_params.map PyVal.paramObj))))
    []

/-- The connection property sets built from conn_params: entries with
an empty parameter set are dropped, the rest are namespaced. -/
def extractedSets (dp : SynDynProps) (ns : String) : List ConnectionPropertySet :=
  (connParamsOf dp).filterMap (fun pr =>
    if pr.2 = [] then none
    else some ⟨append_namespace pr.1 ns,
      pr.2.map (fun v => ⟨append_namespace v.pname ns, dp.quantity v.pname⟩)⟩)

/-- Embedding of Network._extract_connection_property_sets exactly as
written: varying_params holds Parameter objects, not_permitted holds
name strings, conn_params is a defaultdict from event port to the
intersection of varying_params with the parameters required by the
state assignments of each on-event, and entries with an empty set are
dropped from the result.  The error value models raising
Pype9UnflattenableSynapseException. -/
def extractLiteral (dp : SynDynProps) (ns : String) :
    Except Unit (List ConnectionPropertySet) :=
  let notPermitted : List PyVal := dp.component_class.td_oc_required.map PyVal.strVal
  if ((varyingParams dp).filter (fun v => elemD v notPermitted)) ≠ [] then
    Except.error ()
  else
    Except.ok (extractedSets dp ns)

/-!
Embedding of the per-population body of
Network._flatten_to_arrays_and_conns.  The extractor is passed as a
parameter so that theorems can also speak about the control flow the
orchestrator performs for a given extraction outcome; the code itself
always calls the class method embedded by extractLiteral.
-/

/-- The type of the connection-property extraction step. -/
abbrev ExtractFn := SynDynProps → String → Except Unit (List ConnectionPropertySet)

/-- An externalized per-connection synapse definition
(SynapseProperties in the source): the projection name, the flattened
synapse, and the rewritten connections binding it to the post side. -/
structure SynapseProps where
  name : String
  synapse : FlatSynapse
  conns : List PortConnection
deriving DecidableEq, Repr

/-- A sub-component of the per-population MultiDynamics: either the
cell dynamics or an embedded flattened synapse. -/
inductive SubComponent where
  | cellDyn : DynamicsProperties → SubComponent
  | synDyn : FlatSynapse → SubComponent
deriving DecidableEq, Repr

/-- A flattened connection group (EventConnectionGroup9ML or
AnalogConnectionGroup9ML in the source). -/
structure ConnGroup where
  name : String
  isEvent : Bool
  source : String
  destination : String
  source_port : String
  destination_port : String
  connectivity : Connectivity
  delay : Delay
deriving DecidableEq, Repr

/-- The accumulating state of the orchestrator while it processes the
projections of one population, together with the network-wide
connection-group map. -/
structure PopState where
  sub_components : List (String × SubComponent)
  internal_conns : List LocalConn
  exposures : List Exposure
  synapses : List SynapseProps
  connection_property_sets : List ConnectionPropertySet
  connection_groups : List (String × ConnGroup)
deriving DecidableEq, Repr

/-- Python dictionary assignment d[k] = v: replaces any binding of the
key, silently, and otherwise appends the binding. -/
def dictInsert {β : Type} : List (String × β) → String → β → List (String × β)
  | [], k, v => [(k, v)]
  | p :: t, k, v => if p.1 = k then dictInsert t k v else p :: dictInsert t k v

/-- Whether a rewritten connection touches the pre-synaptic cell. -/
def touchesPre (pc : PortConnection) : Bool :=
  decide (pc.receiver_role = "pre") || decide (pc.sender_role = "pre")

/-- The pre_conns of the orchestrator: rewritten connections of the
projection touching the pre-synaptic cell. -/
def preConns (proj : Projection) : List PortConnection :=
  (flattenSynapse proj).2.filter touchesPre

/-- The post_conns of the orchestrator: the remaining rewritten
connections, between the synapse and the post-synaptic cell. -/
def postConns (proj : Projection) : List PortConnection :=
  (flattenSynapse proj).2.filter (fun pc => !(touchesPre pc))

/-- The derived name of the connection group emitted for one rewritten
connection of a projection. -/
def groupName (proj : Projection) (pc : PortConnection) : String :=
  proj.name ++ "__" ++ pc.sender_role ++ "__" ++ pc.send_port ++ "__" ++
    pc.receiver_role ++ "__" ++ pc.receive_port

/-- The connection group the orchestrator emits for one rewritten
connection touching the pre-synaptic cell: forward connections carry
the connectivity and delay of the projection, reverse connections the
inverted connectivity and a zero delay; ports are namespaced through
the role-to-name map. -/
def mkConnGroup (proj : Projection) (m : List (String × String)) (pc : PortConnection) :
    ConnGroup :=
  let nsPc := assignPortNamespaces m pc
  { name := groupName proj pc,
    isEvent := decide (pc.communicates = "event"),
    source := proj.pre.name,
    destination := proj.post.name,
    source_port := nsPc.send_port,
    destination_port := nsPc.receive_port,
    connectivity := if pc.sender_role = "pre" then proj.connectivity
      else Connectivity.inverse proj.connectivity,
    delay := if pc.sender_role = "pre" then proj.delay else zeroDelay }

/-- Embedding of the body of the receiving-projection loop of
Network._flatten_to_arrays_and_conns: flattens the synapse, embeds it
when the merged dynamics is linear and extraction succeeds, otherwise
externalizes it; then extends the exposures for connections touching
the pre-synaptic cell and emits the connection groups.  The role2name
dictionary starts at post -> cell, gains synapse -> projection name
inside the try block once the linearity check has passed, and gains
pre -> cell before the connection-group loop. -/
def processReceiving (extract : ExtractFn) (st : PopState) (proj : Projection) : PopState :=
  let syn := (flattenSynapse proj).1
  let pre_conns := preConns proj
  let post_conns := postConns proj
  let tryRes : PopState × List (String × String) :=
    if syn.componentClass.linear then
      let r2n : List (String × String) := [("post", cell_dyn_name), ("synapse", proj.name)]
      match extract syn.toProps proj.name with
      | Except.ok cps =>
        ({ st with
           connection_property_sets := st.connection_property_sets ++ cps,
           sub_components := st.sub_components ++ [(proj.name, SubComponent.synDyn syn)],
           internal_conns := st.internal_conns ++ post_conns.map (assignRoles r2n) }, r2n)
      | Except.error _ =>
        ({ st with
           synapses := st.synapses ++ [⟨proj.name, syn, post_conns⟩],
           exposures := st.exposures ++
             post_conns.flatMap (exposePorts [("post", cell_dyn_name)]) }, r2n)
    else
      ({ st with
         synapses := st.synapses ++ [⟨proj.name, syn, post_conns⟩],
         exposures := st.exposures ++
           post_conns.flatMap (exposePorts [("post", cell_dyn_name)]) },
       [("post", cell_dyn_name)])
  let st1 := tryRes.1
  let r2n := tryRes.2
  let st2 := { st1 with exposures := st1.exposures ++ pre_conns.flatMap (exposePorts r2n) }
  let r2nPre := r2n ++ [("pre", cell_dyn_name)]
  let newGroups :=
    pre_conns.foldl
      (fun m pc => dictInsert m (groupName proj pc) (mkConnGroup proj r2nPre pc))
      st2.connection_groups
  { st2 with connection_groups := newGroups }

/-- Embedding of the sending-projection loop of
Network._flatten_to_arrays_and_conns: re-flattens the synapse of the
projection and extends the exposures with the cell ports of the
rewritten connections whose endpoint role is pre. -/
def processSending (st : PopState) (proj : Projection) : PopState :=
  { st with exposures := st.exposures ++
      ((flattenSynapse proj).2).flatMap (exposePorts [("pre", cell_dyn_name)]) }

/-- A nineml population as read by the pass. -/
structure Population where
  name : String
  size : Nat
  cell : DynamicsProperties
deriving DecidableEq, Repr

/-- A nineml network: populations and projections. -/
structure NetworkModel where
  populations : List Population
  projections : List Projection
deriving DecidableEq, Repr

/-- Models the comparison pop == p.post or membership of pop in the
populations of a selection, as used to partition projections. -/
def popMatches (r : PopRef) (popName : String) : Bool :=
  (!r.isSelection && decide (r.name = popName)) ||
  (r.isSelection && elemD popName r.populations)

/-- The receiving projections of a population. -/
def receivingOf (net : NetworkModel) (pop : Population) : List Projection :=
  net.projections.filter (fun p => popMatches p.post pop.name)

/-- The sending projections of a population. -/
def sendingOf (net : NetworkModel) (pop : Population) : List Projection :=
  net.projections.filter (fun p => popMatches p.pre pop.name)

/-- The initial per-population state: the cell dynamics under the
reserved role name, everything else empty, threading the network-wide
connection-group map. -/
def initState (pop : Population) (groups : List (String × ConnGroup)) : PopState :=
  ⟨[(cell_dyn_name, SubComponent.cellDyn pop.cell)], [], [], [], [], groups⟩

/-- The flattened per-population output
(ComponentArray9ML wrapping MultiDynamicsWithSynapsesProperties in the
source); the exposures are passed through a set, modelled by
deduplication. -/
structure ComponentArrayModel where
  name : String
  size : Nat
  sub_components : List (String × SubComponent)
  port_connections : List LocalConn
  port_exposures : List Exposure
  synapses : List SynapseProps
  connection_property_sets : List ConnectionPropertySet
deriving DecidableEq, Repr

/-- Packages the final state of a population into its component
array. -/
def mkArray (pop : Population) (st : PopState) : ComponentArrayModel :=
  ⟨pop.name, pop.size, st.sub_components, st.internal_conns, st.exposures.dedup,
   st.synapses, st.connection_property_sets⟩

/-- Embedding of the population loop of
Network._flatten_to_arrays_and_conns: for each population, checks that
no receiving projection carries the reserved cell role name (the
Pype9RuntimeError raise), folds the receiving and sending projections,
and stores the component array under the population name.  An error
aborts the whole pass with no output. -/
def flattenPops (extract : ExtractFn) (net : NetworkModel) :
    List Population → List (String × ComponentArrayModel) → List (String × ConnGroup) →
    Except String (List (String × ComponentArrayModel) × List (String × ConnGroup))
  | [], arrays, groups => Except.ok (arrays, groups)
  | pop :: rest, arrays, groups =>
    let receiving := receivingOf net pop
    let sending := sendingOf net pop
    if receiving.any (fun p => decide (p.name = cell_dyn_name)) then
      Except.error "Cannot handle projections named like the cell dynamics role"
    else
      let stR := receiving.foldl (processReceiving extract) (initState pop groups)
      let stS := sending.foldl processSending stR
      flattenPops extract net rest (dictInsert arrays pop.name (mkArray pop stS))
        stS.connection_groups

/-- Embedding of Network._flatten_to_arrays_and_conns. -/
def flattenNetwork (extract : ExtractFn) (net : NetworkModel) :
    Except String (List (String × ComponentArrayModel) × List (String × ConnGroup)) :=
  flattenPops extract net net.populations [] []

/-- Whether the pass completed without a fatal error. -/
def resOk {ε α : Type} : Except ε α → Bool
  | Except.ok _ => true
  | Except.error _ => false

/-- The connection groups of a completed pass. -/
def resGroups
    (r : Except String (List (String × ComponentArrayModel) × List (String × ConnGroup))) :
    List (String × ConnGroup) :=
  match r with
  | Except.ok x => x.2
  | Except.error _ => []

/-- The component arrays of a completed pass. -/
def resArrays
    (r : Except String (List (String × ComponentArrayModel) × List (String × ConnGroup))) :
    List (String × ComponentArrayModel) :=
  match r with
  | Except.ok x => x.1
  | Except.error _ => []

/-- The receiving-projection loop of the orchestrator as a fold. -/
def foldReceiving (extract : ExtractFn) (st : PopState) (l : List Projection) : PopState :=
  l.foldl (processReceiving extract) st

/-- The value of the role2name dictionary of the orchestrator after
the try block: it maps post to the cell role name, and also synapse to
the projection name exactly when the linearity check has passed, even
when the synapse was afterwards reclassified by a failing
extraction. -/
def recvRole2name (proj : Projection) : List (String × String) :=
  if (flattenSynapse proj).1.componentClass.linear then
    [("post", cell_dyn_name), ("synapse", proj.name)]
  else
    [("post", cell_dyn_name)]

/-- Whether a role belongs to the closed role set of a projection
connection. -/
def validRole (r : String) : Prop :=
  r = "pre" ∨ r = "post" ∨ r = "response" ∨ r = "plasticity"

instance (r : String) : Decidable (validRole r) := by
  unfold validRole
  infer_instance

/-- The pre-side cell exposures of a projection computed directly from
its raw port connections; stated from the spec sentence that sending
projections only expose the relevant cell ports, with no need to
re-run synapse flattening. -/
def rawPreExposures (proj : Projection) : List Exposure :=
  proj.port_connections.flatMap (exposePorts [("pre", cell_dyn_name)])

/-- The fixed sub-component name of a synapse-internal role, written
from the spec wording: psr for response, pls for plasticity. -/
def specSynName (r : String) : String := if r = "response" then "psr" else "pls"

/-- The projection restricted to its port connections whose two roles
lie in the closed role set; used to state that connections with any
other role are ignored by the flattener. -/
def validOnly (proj : Projection) : Projection :=
  { proj with
    port_connections :=
      (proj.port_connections.filter
        (fun pc => decide (validRole pc.sender_role) &&
          decide (validRole pc.receiver_role))) }

/-!
Concrete instances used by witnesses and counterexamples.
-/

/-- A trivial linear component class. -/
def trivCC : ComponentClass := ⟨[], true, [], []⟩

/-- A trivial linear dynamics with no properties, used for plasticity
parts and cells of the concrete scenarios. -/
def trivDyn : DynamicsProperties := ⟨"triv", trivCC, []⟩

/-- A linear response dynamics with one per-instance-varying property
w that is required by a time derivative. -/
def respVarying : DynamicsProperties :=
  ⟨"resp", ⟨["w"], true, ["w"], []⟩, [⟨"w", false, "8 nA"⟩]⟩

/-- Scenario projection for the non-atomicity analysis: a linear
synapse whose varying property is required by continuous dynamics,
with one event connection from the pre-synaptic cell to the
response. -/
def projLinVarying : Projection :=
  ⟨"A", ⟨"Src", false, []⟩, ⟨"Tgt", false, []⟩, Connectivity.rule "R", ⟨2, "ms"⟩,
   respVarying, trivDyn, [⟨"pre", "response", "spike", "q", "event"⟩]⟩

/-- The same projection with a non-linear response, rejected directly
by the linearity check. -/
def projNonlin : Projection :=
  { projLinVarying with response :=
      { respVarying with component_class := { respVarying.component_class with linear := false } } }

/-- The target population of the concrete scenarios. -/
def popTgt : Population := ⟨"Tgt", 5, ⟨"cellD", trivCC, []⟩⟩

/-- An extraction step that reports the synapse unflattenable, used to
exercise the exception handler of the orchestrator. -/
def extractFail : ExtractFn := fun _ _ => Except.error ()

/-- A non-linear variant of the linear-varying projection under a
distinct name, paired with it in witnesses of the embedding
dichotomy. -/
def projNonlinB : Projection := { projNonlin with name := "B" }

/-- Input of the failed-promotion scenario: one varying property
weight that is required by a time derivative and also assigned by the
on-event triggered from port spike. -/
def synC3 : SynDynProps :=
  ⟨⟨["weight"], true, ["weight"], [⟨"spike", ["weight"]⟩]⟩,
   [⟨"weight", false, "2 nS"⟩]⟩

/-- Input of the clean one-weight scenario: the varying property
weight is referenced only by the state assignments of the on-event
triggered from port spike, while only tau is required by the
continuous dynamics. -/
def synC4 : SynDynProps :=
  ⟨⟨["weight", "tau"], true, ["tau"], [⟨"spike", ["weight", "tau"]⟩]⟩,
   [⟨"weight", false, "8 nA"⟩, ⟨"tau", true, "5 ms"⟩]⟩

/-- Source population of the name-collision network. -/
def popSrc6 : Population := ⟨"A0", 3, ⟨"cellD", trivCC, []⟩⟩

/-- Target population of the name-collision network. -/
def popTgt6 : Population := ⟨"B", 5, ⟨"cellD", trivCC, []⟩⟩

/-- First projection of the name-collision network: its port name
x__pre__y makes its derived connection-group name collide with the one
of the second projection. -/
def projP1 : Projection :=
  ⟨"a", ⟨"A0", false, []⟩, ⟨"B", false, []⟩, Connectivity.rule "R1", ⟨2, "ms"⟩,
   trivDyn, trivDyn, [⟨"pre", "post", "x__pre__y", "z", "event"⟩]⟩

/-- Second projection of the name-collision network: a different
projection whose derived connection-group name equals the one derived
for the first. -/
def projP2 : Projection :=
  ⟨"a__pre__x", ⟨"A0", false, []⟩, ⟨"B", false, []⟩, Connectivity.rule "R2", ⟨3, "ms"⟩,
   trivDyn, trivDyn, [⟨"pre", "post", "y", "z", "event"⟩]⟩

/-- Network in which two different projections derive the same
connection-group name. -/
def netC6 : NetworkModel := ⟨[popSrc6, popTgt6], [projP1, projP2]⟩

/-- The shared derived connection-group name of the name-collision
network. -/
def gname6 : String := "a__pre__x__pre__y__post__z"

/-- A projection that shares its name with its target population. -/
def projP8 : Projection :=
  ⟨"P", ⟨"A", false, []⟩, ⟨"P", false, []⟩, Connectivity.rule "R", ⟨1, "ms"⟩,
   trivDyn, trivDyn, [⟨"pre", "post", "s", "t", "event"⟩]⟩

/-- Network containing a population named identically to a
projection. -/
def netC8 : NetworkModel :=
  ⟨[⟨"A", 3, ⟨"cellD", trivCC, []⟩⟩, ⟨"P", 4, ⟨"cellD", trivCC, []⟩⟩], [projP8]⟩

/-- A projection carrying the reserved cell-dynamics role name. -/
def projCell : Projection :=
  ⟨"cell", ⟨"A", false, []⟩, ⟨"B", false, []⟩, Connectivity.rule "R", ⟨1, "ms"⟩,
   trivDyn, trivDyn, []⟩

/-- Network whose single population receives a projection named with
the reserved cell-dynamics role name. -/
def netCellName : NetworkModel := ⟨[⟨"B", 2, ⟨"cellD", trivCC, []⟩⟩], [projCell]⟩

/-- A projection with a port connection whose receiver role lies
outside the closed role set. -/
def projBadRole : Projection :=
  ⟨"c", ⟨"A", false, []⟩, ⟨"B", false, []⟩, Connectivity.rule "R", ⟨1, "ms"⟩,
   trivDyn, trivDyn, [⟨"response", "banana", "u", "v", "event"⟩]⟩

/-!
Generic lemmas about the dictionary model.
-/

theorem alookup_append_some {β : Type} {k : String} {a : List (String × β)} {v : β}
    (b : List (String × β)) (h : alookup k a = some v) :
    alookup k (a ++ b) = some v := by
  induction a with
  | nil => simp [alookup] at h
  | cons p t ih =>
    by_cases hp : p.1 = k
    · simp only [alookup, List.cons_append, if_pos hp] at h ⊢
      exact h
    · simp only [alookup, List.cons_append, if_neg hp] at h ⊢
      exact ih h

theorem alookup_append_none {β : Type} {k : String} {a : List (String × β)}
    (b : List (String × β)) (h : alookup k a = none) :
    alookup k (a ++ b) = alookup k b := by
  induction a with
  | nil => rfl
  | cons p t ih =>
    by_cases hp : p.1 = k
    · simp [alookup, if_pos hp] at h
    · simp only [alookup, List.cons_append, if_neg hp] at h ⊢
      exact ih h

theorem alookup_eq_none_iff {β : Type} {k : String} {m : List (String × β)} :
    alookup k m = none ↔ ∀ p ∈ m, p.1 ≠ k := by
  induction m with
  | nil => simp [alookup]
  | cons p t ih =>
    by_cases hp : p.1 = k
    · simp [alookup, if_pos hp, hp]
    · simp [alookup, if_neg hp, ih, hp]

theorem mem_of_alookup_eq_some {β : Type} {k : String} {m : List (String × β)} {v : β}
    (h : alookup k m = some v) : (k, v) ∈ m := by
  induction m with
  | nil => simp [alookup] at h
  | cons p t ih =>
    cases p with
    | mk k1 v1 =>
      by_cases hp : k1 = k
      · simp only [alookup, if_pos hp] at h
        subst hp
        obtain rfl := Option.some.inj h
        exact List.mem_cons_self _ _
      · simp only [alookup, if_neg hp] at h
        exact List.mem_cons_of_mem _ (ih h)

theorem alookup_dictInsert_self {β : Type} (m : List (String × β)) (k : String) (v : β) :
    alookup k (dictInsert m k v) = some v := by
  induction m with
  | nil => simp [dictInsert, alookup]
  | cons p t ih =>
    by_cases hp : p.1 = k
    · simpa [dictInsert, if_pos hp] using ih
    · simpa [dictInsert, if_neg hp, alookup] using ih

theorem alookup_dictInsert_ne {β : Type} (m : List (String × β)) {k k' : String} (v : β)
    (h : k' ≠ k) : alookup k' (dictInsert m k v) = alookup k' m := by
  induction m with
  | nil =>
    simp only [dictInsert, alookup]
    rw [if_neg (fun hk => h (hk.symm))]
  | cons p t ih =>
    by_cases hp : p.1 = k
    · rw [dictInsert, if_pos hp, ih, alookup, if_neg (hp ▸ fun hk => h hk.symm)]
    · rw [dictInsert, if_neg hp, alookup, alookup]
      by_cases hp' : p.1 = k'
      · rw [if_pos hp', if_pos hp']
      · rw [if_neg hp', if_neg hp', ih]

theorem mem_dictInsert {β : Type} {m : List (String × β)} {k : String} {v : β}
    {x : String × β} (h : x ∈ dictInsert m k v) : x ∈ m ∨ x = (k, v) := by
  induction m with
  | nil => simpa [dictInsert] using h
  | cons p t ih =>
    by_cases hp : p.1 = k
    · rw [dictInsert, if_pos hp] at h
      rcases ih h with hm | he
      · exact Or.inl (List.mem_cons_of_mem _ hm)
      · exact Or.inr he
    · rw [dictInsert, if_neg hp] at h
      rcases List.mem_cons.mp h with he | hm
      · exact Or.inl (he ▸ List.mem_cons_self _ _)
      · rcases ih hm with hm' | he'
        · exact Or.inl (List.mem_cons_of_mem _ hm')
        · exact Or.inr he'

theorem mem_foldl_dictInsert {α β : Type} (key : α → String) (val : α → β) :
    ∀ (l : List α) (m : List (String × β)) (x : String × β),
      x ∈ l.foldl (fun m a => dictInsert m (key a) (val a)) m →
      x ∈ m ∨ ∃ a ∈ l, x = (key a, val a) := by
  intro l
  induction l with
  | nil => intro m x h; exact Or.inl h
  | cons a t ih =>
    intro m x h
    rcases ih (dictInsert m (key a) (val a)) x h with hm | ⟨a', ha', he⟩
    · rcases mem_dictInsert hm with hm' | he'
      · exact Or.inl hm'
      · exact Or.inr ⟨a, List.mem_cons_self _ _, he'⟩
    · exact Or.inr ⟨a', List.mem_cons_of_mem _ ha', he⟩

theorem alookup_foldl_dictInsert_of_ne {α β : Type} (key : α → String) (val : α → β) :
    ∀ (l : List α) (m : List (String × β)) (k : String),
      (∀ a ∈ l, key a ≠ k) →
      alookup k (l.foldl (fun m a => dictInsert m (key a) (val a)) m) = alookup k m := by
  intro l
  induction l with
  | nil => intro m k _; rfl
  | cons a t ih =>
    intro m k h
    rw [List.foldl_cons, ih _ k (fun a' ha' => h a' (List.mem_cons_of_mem _ ha')),
      alookup_dictInsert_ne _ _ (fun hk => h a (List.mem_cons_self _ _) hk.symm)]

theorem alookup_foldl_dictInsert_unique {α : Type} [DecidableEq α] {β : Type}
    (key : α → String) (val : α → β) :
    ∀ (l : List α) (m : List (String × β)) (k : String) (a0 : α),
      l.filter (fun a => decide (key a = k)) = [a0] →
      alookup k (l.foldl (fun m a => dictInsert m (key a) (val a)) m) = some (val a0) := by
  intro l
  induction l with
  | nil => intro m k a0 h; simp at h
  | cons a t ih =>
    intro m k a0 h
    by_cases hk : key a = k
    · rw [List.filter_cons_of_pos (by simpa using hk)] at h
      have ha : a = a0 := (List.cons_eq_cons.mp h).1
      have ht : t.filter (fun a => decide (key a = k)) = [] := (List.cons_eq_cons.mp h).2
      have hnone : ∀ a' ∈ t, key a' ≠ k := by
        intro a' ha'
        have := List.filter_eq_nil_iff.mp ht a' ha'
        simpa using this
      rw [List.foldl_cons, alookup_foldl_dictInsert_of_ne key val t _ k hnone, ← hk,
        alookup_dictInsert_self, ha]
    · rw [List.filter_cons_of_neg (by simpa using hk)] at h
      rw [List.foldl_cons]
      exact ih _ k a0 h

/-!
Lemmas about the extractor: the guard comparing Parameter objects with
name strings can never fire.
-/

theorem elemD_iff {α : Type} [DecidableEq α] {x : α} {l : List α} :
    elemD x l = true ↔ x ∈ l := by
  induction l with
  | nil => simp [elemD]
  | cons y t ih =>
    by_cases hy : y = x
    · simp [elemD, hy]
    · simp only [elemD, if_neg hy, ih, List.mem_cons]
      constructor
      · exact fun h => Or.inr h
      · rintro (h | h)
        · exact absurd h.symm hy
        · exact h

theorem elemD_paramObj_map_strVal (x : String) (l : List String) :
    elemD (PyVal.paramObj x) (l.map PyVal.strVal) = false := by
  induction l with
  | nil => rfl
  | cons y t ih => simpa [elemD] using ih

theorem varying_strVal_filter_nil (dp : SynDynProps) :
    (varyingParams dp).filter
      (fun v => elemD v (dp.component_class.td_oc_required.map PyVal.strVal)) = [] := by
  apply List.filter_eq_nil_iff.mpr
  intro v hv
  rcases List.mem_map.mp hv with ⟨p, _, hp⟩
  rw [← hp, elemD_paramObj_map_strVal]
  simp

theorem extractLiteral_eq_ok (dp : SynDynProps) (ns : String) :
    extractLiteral dp ns = Except.ok (extractedSets dp ns) := by
  rw [extractLiteral]
  simp [varying_strVal_filter_nil dp]

/-!
Invariants of the conn_params defaultdict.
-/

theorem updConnParams_keys (m : List (String × List PyVal)) (k : String)
    (add : List PyVal) :
    (updConnParams m k add).map Prod.fst = m.map Prod.fst ∨
    (updConnParams m k add).map Prod.fst = m.map Prod.fst ++ [k] := by
  rw [updConnParams]
  cases alookup k m with
  | some _ =>
    left
    rw [List.map_map]
    apply List.map_congr_left
    intro p _
    by_cases hp : p.1 = k
    · simp [hp]
    · simp [hp]
  | none =>
    right
    simp

theorem updConnParams_keys_nodup {m : List (String × List PyVal)} {k : String}
    {add : List PyVal} (h : (m.map Prod.fst).Nodup) :
    ((updConnParams m k add).map Prod.fst).Nodup := by
  rw [updConnParams]
  cases hm : alookup k m with
  | some _ =>
    have : (m.map (fun p => if p.1 = k then (p.1, listUnion p.2 add) else p)).map Prod.fst
        = m.map Prod.fst := by
      rw [List.map_map]
      apply List.map_congr_left
      intro p _
      by_cases hp : p.1 = k
      · simp [hp]
      · simp [hp]
    rw [this]
    exact h
  | none =>
    rw [List.map_append]
    simp only [List.map_cons, List.map_nil]
    apply List.Nodup.append h (List.nodup_singleton k)
    intro x hx hx'
    obtain rfl := List.mem_singleton.mp hx'
    have := alookup_eq_none_iff.mp hm
    rcases List.mem_map.mp hx with ⟨p, hp, hp'⟩
    exact this p hp hp'

theorem updConnParams_key_prov (Q : String → Prop) {m : List (String × List PyVal)}
    {k : String} {add : List PyVal} (hm : ∀ pr ∈ m, Q pr.1) (hk : Q k) :
    ∀ pr ∈ updConnParams m k add, Q pr.1 := by
  intro pr hpr
  rw [updConnParams] at hpr
  split at hpr
  · rcases List.mem_map.mp hpr with ⟨p, hp, hp'⟩
    by_cases hpk : p.1 = k
    · rw [if_pos hpk] at hp'
      rw [← hp']
      exact hm p hp
    · rw [if_neg hpk] at hp'
      rw [← hp']
      exact hm p hp
  · rcases List.mem_append.mp hpr with hp | hp
    · exact hm pr hp
    · obtain rfl := List.mem_singleton.mp hp
      exact hk

theorem updConnParams_val_prov (R : PyVal → Prop) {m : List (String × List PyVal)}
    {k : String} {add : List PyVal} (hm : ∀ pr ∈ m, ∀ v ∈ pr.2, R v)
    (hadd : ∀ v ∈ add, R v) :
    ∀ pr ∈ updConnParams m k add, ∀ v ∈ pr.2, R v := by
  intro pr hpr
  rw [updConnParams] at hpr
  split at hpr
  · rcases List.mem_map.mp hpr with ⟨p, hp, hp'⟩
    intro v hv
    by_cases hpk : p.1 = k
    · rw [if_pos hpk] at hp'
      rw [← hp'] at hv
      rcases List.mem_append.mp hv with h2 | h2
      · exact hm p hp v h2
      · exact hadd v (List.mem_filter.mp h2).1
    · rw [if_neg hpk] at hp'
      rw [← hp'] at hv
      exact hm p hp v hv
  · rcases List.mem_append.mp hpr with hp | hp
    · exact hm pr hp
    · obtain rfl := List.mem_singleton.mp hp
      exact hadd

theorem connParamsOf_keys_nodup (dp : SynDynProps) :
    ((connParamsOf dp).map Prod.fst).Nodup := by
  rw [connParamsOf]
  generalize dp.component_class.on_events = evs
  have : ∀ (evs : List OnEvent) (m : List (String × List PyVal)),
      (m.map Prod.fst).Nodup →
      ((evs.foldl (fun m oe => updConnParams m oe.src_port_name
        ((varyingParams dp).filter
          (fun v => elemD v (oe.required_params.map PyVal.paramObj)))) m).map Prod.fst).Nodup := by
    intro evs
    induction evs with
    | nil => intro m h; exact h
    | cons oe t ih =>
      intro m h
      exact ih _ (updConnParams_keys_nodup h)
  exact this evs [] (by simp)

theorem connParamsOf_key_prov (dp : SynDynProps) :
    ∀ pr ∈ connParamsOf dp, ∃ oe ∈ dp.component_class.on_events,
      pr.1 = oe.src_port_name := by
  rw [connParamsOf]
  have : ∀ (evs : List OnEvent) (m : List (String × List PyVal)),
      (∀ pr ∈ m, ∃ oe ∈ dp.component_class.on_events, pr.1 = oe.src_port_name) →
      (∀ oe ∈ evs, oe ∈ dp.component_class.on_events) →
      ∀ pr ∈ evs.foldl (fun m oe => updConnParams m oe.src_port_name
        ((varyingParams dp).filter
          (fun v => elemD v (oe.required_params.map PyVal.paramObj)))) m,
        ∃ oe ∈ dp.component_class.on_events, pr.1 = oe.src_port_name := by
    intro evs
    induction evs with
    | nil => intro m h _; exact h
    | cons oe t ih =>
      intro m h hevs
      apply ih
      · exact updConnParams_key_prov
          (fun x => ∃ oe ∈ dp.component_class.on_events, x = oe.src_port_name) h
          ⟨oe, hevs oe (List.mem_cons_self _ _), rfl⟩
      · exact fun oe' hoe' => hevs oe' (List.mem_cons_of_mem _ hoe')
  exact this dp.component_class.on_events [] (by simp) (fun _ h => h)

theorem connParamsOf_val_prov (dp : SynDynProps) :
    ∀ pr ∈ connParamsOf dp, ∀ v ∈ pr.2, v ∈ varyingParams dp := by
  rw [connParamsOf]
  have : ∀ (evs : List OnEvent) (m : List (String × List PyVal)),
      (∀ pr ∈ m, ∀ v ∈ pr.2, v ∈ varyingParams dp) →
      ∀ pr ∈ evs.foldl (fun m oe => updConnParams m oe.src_port_name
        ((varyingParams dp).filter
          (fun v => elemD v (oe.required_params.map PyVal.paramObj)))) m,
        ∀ v ∈ pr.2, v ∈ varyingParams dp := by
    intro evs
    induction evs with
    | nil => intro m h; exact h
    | cons oe t ih =>
      intro m h
      exact ih _ (updConnParams_val_prov (fun v => v ∈ varyingParams dp) h
        (fun v hv => (List.mem_filter.mp hv).1))
  exact this dp.component_class.on_events [] (by simp)

theorem append_namespace_left_inj {a b ns : String}
    (h : append_namespace a ns = append_namespace b ns) : a = b := by
  unfold append_namespace at h
  have hd := congrArg String.data h
  rw [String.data_append, String.data_append, String.data_append, String.data_append] at hd
  have h1 := List.append_cancel_right hd
  have h2 := List.append_cancel_right h1
  exact String.ext h2

theorem filterMap_ports_nodup (ns : String)
    (f : String × List PyVal → Option ConnectionPropertySet)
    (hf : ∀ pr s, f pr = some s → s.port = append_namespace pr.1 ns) :
    ∀ m : List (String × List PyVal), (m.map Prod.fst).Nodup →
      ((m.filterMap f).map ConnectionPropertySet.port).Nodup := by
  intro m
  induction m with
  | nil => simp
  | cons pr t ih =>
    intro hkeys
    simp only [List.map_cons, List.nodup_cons] at hkeys
    cases hfa : f pr with
    | none =>
      rw [List.filterMap_cons_none hfa]
      exact ih hkeys.2
    | some s =>
      rw [List.filterMap_cons_some hfa]
      simp only [List.map_cons, List.nodup_cons]
      refine ⟨?_, ih hkeys.2⟩
      intro hmem
      rcases List.mem_map.mp hmem with ⟨s', hs', hsport⟩
      rcases List.mem_filterMap.mp hs' with ⟨pr', hpr', hg⟩
      have : pr.1 = pr'.1 := by
        apply append_namespace_left_inj
        rw [← hf pr s hfa, ← hf pr' s' hg, hsport]
      exact hkeys.1 (this ▸ List.mem_map_of_mem Prod.fst hpr')

theorem extractedSets_ports_nodup (dp : SynDynProps) (ns : String) :
    ((extractedSets dp ns).map ConnectionPropertySet.port).Nodup := by
  rw [extractedSets]
  apply filterMap_ports_nodup ns _ _ _ (connParamsOf_keys_nodup dp)
  intro pr s hg
  by_cases h2 : pr.2 = []
  · simp [h2] at hg
  · simp only [if_neg h2] at hg
    obtain rfl := Option.some.inj hg
    rfl

theorem mem_extractedSets {dp : SynDynProps} {ns : String} {s : ConnectionPropertySet}
    (h : s ∈ extractedSets dp ns) :
    ∃ pr ∈ connParamsOf dp, pr.2 ≠ [] ∧ s.port = append_namespace pr.1 ns ∧
      s.properties = pr.2.map
        (fun v => ⟨append_namespace v.pname ns, dp.quantity v.pname⟩) := by
  rcases List.mem_filterMap.mp h with ⟨pr, hpr, hg⟩
  by_cases h2 : pr.2 = []
  · simp [h2] at hg
  · simp only [if_neg h2] at hg
    obtain rfl := Option.some.inj hg
    exact ⟨pr, hpr, h2, rfl, rfl⟩

theorem mem_varyingParams {dp : SynDynProps} {v : PyVal} (h : v ∈ varyingParams dp) :
    ∃ p ∈ dp.properties, p.single = false ∧ v = PyVal.paramObj p.name := by
  rcases List.mem_map.mp h with ⟨p, hp, hp'⟩
  have := List.mem_filter.mp hp
  exact ⟨p, this.1, by simpa using this.2, hp'.symm⟩

/-- C4: when extraction succeeds it produces at most one
ConnectionPropertySet per triggering event port, none with an empty
property list, every returned set belongs to the port of one of the
event-triggered transitions and carries only varying properties,
namespaced; and on the one-varying-weight scenario exactly one set is
produced, for the port of that on-event, containing exactly that
property. -/
theorem c4_extraction_grouping :
    (∀ (dp : SynDynProps) (ns : String),
      extractLiteral dp ns = Except.ok (extractedSets dp ns) ∧
      ((extractedSets dp ns).map ConnectionPropertySet.port).Nodup ∧
      (∀ s ∈ extractedSets dp ns, s.properties ≠ []) ∧
      (∀ s ∈ extractedSets dp ns, ∃ oe ∈ dp.component_class.on_events,
        s.port = append_namespace oe.src_port_name ns) ∧
      (∀ s ∈ extractedSets dp ns, ∀ q ∈ s.properties, ∃ p ∈ dp.properties,
        p.single = false ∧ q.name = append_namespace p.name ns)) ∧
    extractLiteral synC4 "P" =
      Except.ok [⟨"spike__P", [⟨"weight__P", "8 nA"⟩]⟩] := by
  constructor
  · intro dp ns
    refine ⟨extractLiteral_eq_ok dp ns, extractedSets_ports_nodup dp ns, ?_, ?_, ?_⟩
    · intro s hs
      rcases mem_extractedSets hs with ⟨pr, _, h2, _, hprops⟩
      rw [hprops]
      simpa using h2
    · intro s hs
      rcases mem_extractedSets hs with ⟨pr, hpr, _, hport, _⟩
      rcases connParamsOf_key_prov dp pr hpr with ⟨oe, hoe, hoe'⟩
      exact ⟨oe, hoe, by rw [hport, hoe']⟩
    · intro s hs q hq
      rcases mem_extractedSets hs with ⟨pr, hpr, _, _, hprops⟩
      rw [hprops] at hq
      rcases List.mem_map.mp hq with ⟨v, hv, hv'⟩
      have hvv := connParamsOf_val_prov dp pr hpr v hv
      rcases mem_varyingParams hvv with ⟨p, hp, hps, hpv⟩
      exact ⟨p, hp, hps, by rw [← hv', hpv, PyVal.pname]⟩
  · rfl

/-- C3, recorded divergence: on a synapse whose varying property
weight is required by a time derivative, the extractor must abort with
UnflattenableSynapse and produce nothing, but the guard compares
Parameter objects with name strings, an intersection that is always
empty, so the embedded code succeeds and even yields a
ConnectionPropertySet for weight; in general the literal extractor can
never abort. -/
theorem c3_extraction_guard_never_fires :
    extractLiteral synC3 "P" =
      Except.ok [⟨"spike__P", [⟨"weight__P", "2 nS"⟩]⟩] ∧
    ∀ (dp : SynDynProps) (ns : String), resOk (extractLiteral dp ns) = true := by
  constructor
  · rfl
  · intro dp ns
    rw [extractLiteral_eq_ok]
    rfl

/-!
Shape lemmas for the receiving-projection step.
-/

theorem foldReceiving_cons (extract : ExtractFn) (st : PopState) (p : Projection)
    (t : List Projection) :
    foldReceiving extract st (p :: t) = foldReceiving extract (processReceiving extract st p) t :=
  rfl

theorem processReceiving_sub_components (st : PopState) (proj : Projection) :
    (processReceiving extractLiteral st proj).sub_components =
      st.sub_components ++
        (if (flattenSynapse proj).1.componentClass.linear then
          [(proj.name, SubComponent.synDyn (flattenSynapse proj).1)]
        else []) := by
  by_cases hl : (flattenSynapse proj).1.componentClass.linear
  · simp [processReceiving, hl, extractLiteral_eq_ok]
  · simp [processReceiving, hl]

theorem processReceiving_synapses (st : PopState) (proj : Projection) :
    (processReceiving extractLiteral st proj).synapses =
      st.synapses ++
        (if (flattenSynapse proj).1.componentClass.linear then []
        else [⟨proj.name, (flattenSynapse proj).1, postConns proj⟩]) := by
  by_cases hl : (flattenSynapse proj).1.componentClass.linear
  · simp [processReceiving, hl, extractLiteral_eq_ok]
  · simp [processReceiving, hl]

theorem processReceiving_groups (extract : ExtractFn) (st : PopState) (proj : Projection) :
    (processReceiving extract st proj).connection_groups =
      (preConns proj).foldl
        (fun m pc => dictInsert m (groupName proj pc)
          (mkConnGroup proj (recvRole2name proj ++ [("pre", cell_dyn_name)]) pc))
        st.connection_groups := by
  by_cases hl : (flattenSynapse proj).1.componentClass.linear
  · cases he : extract (flattenSynapse proj).1.toProps proj.name with
    | ok cps => simp [processReceiving, recvRole2name, hl, he]
    | error e => simp [processReceiving, recvRole2name, hl, he]
  · simp [processReceiving, recvRole2name, hl]

theorem alookup_sub_step (st : PopState) (p : Projection) (n : String)
    (hne : p.name ≠ n) :
    alookup n (processReceiving extractLiteral st p).sub_components =
      alookup n st.sub_components := by
  rw [processReceiving_sub_components]
  cases hs : alookup n st.sub_components with
  | some v => exact alookup_append_some _ hs
  | none =>
    rw [alookup_append_none _ hs]
    by_cases hl : (flattenSynapse p).1.componentClass.linear
    · simp [hl, alookup, hne]
    · simp [hl, alookup]

theorem foldReceiving_sub_preserved :
    ∀ (l : List Projection) (st : PopState) (n : String),
      (∀ p ∈ l, p.name ≠ n) →
      alookup n (foldReceiving extractLiteral st l).sub_components =
        alookup n st.sub_components := by
  intro l
  induction l with
  | nil => intro st n _; rfl
  | cons p t ih =>
    intro st n h
    rw [foldReceiving_cons, ih _ n (fun q hq => h q (List.mem_cons_of_mem _ hq)),
      alookup_sub_step st p n (h p (List.mem_cons_self _ _))]

theorem foldReceiving_syn_mono :
    ∀ (l : List Projection) (st : PopState) (s : SynapseProps),
      s ∈ st.synapses → s ∈ (foldReceiving extractLiteral st l).synapses := by
  intro l
  induction l with
  | nil => intro st s h; exact h
  | cons p t ih =>
    intro st s h
    rw [foldReceiving_cons]
    apply ih
    rw [processReceiving_synapses]
    exact List.mem_append_left _ h

theorem foldReceiving_spec (proj : Projection) :
    ∀ (l : List Projection) (st : PopState),
      proj ∈ l → (l.map Projection.name).Nodup →
      alookup proj.name st.sub_components = none →
      (alookup proj.name (foldReceiving extractLiteral st l).sub_components =
        (if (flattenSynapse proj).1.componentClass.linear then
          some (SubComponent.synDyn (flattenSynapse proj).1)
        else none)) ∧
      ((flattenSynapse proj).1.componentClass.linear = false →
        (⟨proj.name, (flattenSynapse proj).1, postConns proj⟩ : SynapseProps) ∈
          (foldReceiving extractLiteral st l).synapses) := by
  intro l
  induction l with
  | nil => intro st h; simp at h
  | cons p t ih =>
    intro st hmem hnd hnone
    simp only [List.map_cons, List.nodup_cons] at hnd
    rcases List.mem_cons.mp hmem with rfl | hmem'
    · have hpres : ∀ q ∈ t, q.name ≠ proj.name := by
        intro q hq hqe
        exact hnd.1 (hqe ▸ List.mem_map_of_mem Projection.name hq)
      constructor
      · rw [foldReceiving_cons, foldReceiving_sub_preserved t _ proj.name hpres,
          processReceiving_sub_components, alookup_append_none _ hnone]
        by_cases hl : (flattenSynapse proj).1.componentClass.linear
        · simp [hl, alookup]
        · simp [hl, alookup]
      · intro hnl
        rw [foldReceiving_cons]
        apply foldReceiving_syn_mono
        rw [processReceiving_synapses, hnl]
        simp
    · have hne : p.name ≠ proj.name := by
        intro he
        exact hnd.1 (he ▸ List.mem_map_of_mem Projection.name hmem')
      rw [foldReceiving_cons]
      exact ih _ hmem' hnd.2
        (by rw [alookup_sub_step st p proj.name hne]; exact hnone)

/-- C1: a receiving projection processed by the orchestrator is
embedded as a sub-component of the MultiComponent of its post-synaptic
population exactly when the merged dynamics of its flattened synapse
is linear, and a non-linear synapse is always kept as an externalized
per-connection synapse definition bound to its post-side
connections. -/
theorem c1_embedded_iff_linear (pop : Population) (groups : List (String × ConnGroup))
    (receiving : List Projection) (proj : Projection)
    (hmem : proj ∈ receiving)
    (hnd : (receiving.map Projection.name).Nodup)
    (hcell : cell_dyn_name ∉ receiving.map Projection.name) :
    (alookup proj.name
        (foldReceiving extractLiteral (initState pop groups) receiving).sub_components =
        some (SubComponent.synDyn (flattenSynapse proj).1) ↔
      (flattenSynapse proj).1.componentClass.linear = true) ∧
    ((flattenSynapse proj).1.componentClass.linear = false →
      alookup proj.name
          (foldReceiving extractLiteral (initState pop groups) receiving).sub_components =
          none ∧
        (⟨proj.name, (flattenSynapse proj).1, postConns proj⟩ : SynapseProps) ∈
          (foldReceiving extractLiteral (initState pop groups) receiving).synapses) := by
  have hpn : proj.name ≠ cell_dyn_name := by
    intro he
    exact hcell (he ▸ List.mem_map_of_mem Projection.name hmem)
  have hinit : alookup proj.name (initState pop groups).sub_components = none := by
    simp only [initState, alookup]
    rw [if_neg (fun he => hpn he.symm)]
  have hspec := foldReceiving_spec proj receiving (initState pop groups) hmem hnd hinit
  by_cases hl : (flattenSynapse proj).1.componentClass.linear
  · rw [if_pos hl] at hspec
    refine ⟨⟨fun _ => hl, fun _ => hspec.1⟩, fun hnl => ?_⟩
    rw [hl] at hnl
    exact absurd hnl (by simp)
  · rw [if_neg hl] at hspec
    constructor
    · constructor
      · intro hsome
        rw [hspec.1] at hsome
        exact absurd hsome (by simp)
      · intro htrue
        exact absurd htrue hl
    · intro hnl
      exact ⟨hspec.1, hspec.2 hnl⟩

/-- C1 witness: in a population receiving a linear projection and a
distinct non-linear one, the linear one is embedded and the non-linear
one is externalized. -/
theorem c1_embedded_iff_linear_witness :
    (projLinVarying ∈ [projLinVarying, projNonlinB] ∧
      (([projLinVarying, projNonlinB].map Projection.name).Nodup) ∧
      cell_dyn_name ∉ [projLinVarying, projNonlinB].map Projection.name) ∧
    ((alookup projLinVarying.name
        (foldReceiving extractLiteral (initState popTgt [])
          [projLinVarying, projNonlinB]).sub_components =
        some (SubComponent.synDyn (flattenSynapse projLinVarying).1) ↔
      (flattenSynapse projLinVarying).1.componentClass.linear = true) ∧
    ((flattenSynapse projLinVarying).1.componentClass.linear = false →
      alookup projLinVarying.name
          (foldReceiving extractLiteral (initState popTgt [])
            [projLinVarying, projNonlinB]).sub_components = none ∧
        (⟨projLinVarying.name, (flattenSynapse projLinVarying).1,
            postConns projLinVarying⟩ : SynapseProps) ∈
          (foldReceiving extractLiteral (initState popTgt [])
            [projLinVarying, projNonlinB]).synapses)) :=
  ⟨⟨by decide, by decide, by decide⟩,
   c1_embedded_iff_linear popTgt [] [projLinVarying, projNonlinB] projLinVarying
     (by decide) (by decide) (by decide)⟩

/-- C2: every connection group emitted while processing a receiving
projection either was already present or comes from one rewritten
connection touching the pre-synaptic cell; forward groups, whose
sender role is pre, carry the connectivity rule and delay of the
projection verbatim, and reverse groups carry the structurally
inverted rule and a delay of exactly zero. -/
theorem c2_forward_reverse_groups (extract : ExtractFn) (st : PopState)
    (proj : Projection) (k : String) (g : ConnGroup)
    (h : (k, g) ∈ (processReceiving extract st proj).connection_groups) :
    (k, g) ∈ st.connection_groups ∨
    ∃ pc ∈ preConns proj,
      g = mkConnGroup proj (recvRole2name proj ++ [("pre", cell_dyn_name)]) pc ∧
      ((pc.sender_role = "pre" ∧ g.connectivity = proj.connectivity ∧
          g.delay = proj.delay) ∨
       (pc.sender_role ≠ "pre" ∧
          g.connectivity = Connectivity.inverse proj.connectivity ∧
          g.delay = zeroDelay)) := by
  rw [processReceiving_groups] at h
  rcases mem_foldl_dictInsert (fun pc => groupName proj pc)
      (fun pc => mkConnGroup proj (recvRole2name proj ++ [("pre", cell_dyn_name)]) pc)
      (preConns proj) st.connection_groups (k, g) h with hm | ⟨pc, hpc, he⟩
  · exact Or.inl hm
  · right
    have hg : g = mkConnGroup proj (recvRole2name proj ++ [("pre", cell_dyn_name)]) pc :=
      (Prod.mk.injEq _ _ _ _ ▸ he).2
    refine ⟨pc, hpc, hg, ?_⟩
    by_cases hp : pc.sender_role = "pre"
    · exact Or.inl ⟨hp, by rw [hg]; simp [mkConnGroup, hp], by rw [hg]; simp [mkConnGroup, hp]⟩
    · exact Or.inr ⟨hp, by rw [hg]; simp [mkConnGroup, hp], by rw [hg]; simp [mkConnGroup, hp]⟩

/-- C2 witness: the single group emitted for the concrete forward
event connection carries the rule R and the 2 ms delay of the
projection. -/
theorem c2_forward_reverse_groups_witness :
    (("A__pre__spike__synapse__q__psr",
        (⟨"A__pre__spike__synapse__q__psr", true, "Src", "Tgt", "spike__cell",
          "q__psr__A", Connectivity.rule "R", ⟨2, "ms"⟩⟩ : ConnGroup)) ∈
      (processReceiving extractLiteral (initState popTgt []) projLinVarying).connection_groups) ∧
    (("A__pre__spike__synapse__q__psr",
        (⟨"A__pre__spike__synapse__q__psr", true, "Src", "Tgt", "spike__cell",
          "q__psr__A", Connectivity.rule "R", ⟨2, "ms"⟩⟩ : ConnGroup)) ∈
        (initState popTgt [] : PopState).connection_groups ∨
      ∃ pc ∈ preConns projLinVarying,
        (⟨"A__pre__spike__synapse__q__psr", true, "Src", "Tgt", "spike__cell",
          "q__psr__A", Connectivity.rule "R", ⟨2, "ms"⟩⟩ : ConnGroup) =
          mkConnGroup projLinVarying
            (recvRole2name projLinVarying ++ [("pre", cell_dyn_name)]) pc ∧
        ((pc.sender_role = "pre" ∧
            (⟨"A__pre__spike__synapse__q__psr", true, "Src", "Tgt", "spike__cell",
              "q__psr__A", Connectivity.rule "R", ⟨2, "ms"⟩⟩ : ConnGroup).connectivity =
              projLinVarying.connectivity ∧
            (⟨"A__pre__spike__synapse__q__psr", true, "Src", "Tgt", "spike__cell",
              "q__psr__A", Connectivity.rule "R", ⟨2, "ms"⟩⟩ : ConnGroup).delay =
              projLinVarying.delay) ∨
         (pc.sender_role ≠ "pre" ∧
            (⟨"A__pre__spike__synapse__q__psr", true, "Src", "Tgt", "spike__cell",
              "q__psr__A", Connectivity.rule "R", ⟨2, "ms"⟩⟩ : ConnGroup).connectivity =
              Connectivity.inverse projLinVarying.connectivity ∧
            (⟨"A__pre__spike__synapse__q__psr", true, "Src", "Tgt", "spike__cell",
              "q__psr__A", Connectivity.rule "R", ⟨2, "ms"⟩⟩ : ConnGroup).delay =
              zeroDelay))) :=
  ⟨by decide,
   c2_forward_reverse_groups extractLiteral (initState popTgt []) projLinVarying
     "A__pre__spike__synapse__q__psr"
     ⟨"A__pre__spike__synapse__q__psr", true, "Src", "Tgt", "spike__cell",
       "q__psr__A", Connectivity.rule "R", ⟨2, "ms"⟩⟩ (by decide)⟩

/-- C4 witness: the clean one-weight scenario evaluated through the
general grouping theorem. -/
theorem c4_extraction_grouping_witness :
    extractLiteral synC4 "P" = Except.ok (extractedSets synC4 "P") ∧
    ((extractedSets synC4 "P").map ConnectionPropertySet.port).Nodup ∧
    (⟨"spike__P", [⟨"weight__P", "8 nA"⟩]⟩ : ConnectionPropertySet).properties ≠ [] :=
  ⟨(c4_extraction_grouping.1 synC4 "P").1,
   (c4_extraction_grouping.1 synC4 "P").2.1,
   (c4_extraction_grouping.1 synC4 "P").2.2.1
     ⟨"spike__P", [⟨"weight__P", "8 nA"⟩]⟩ (by decide)⟩

/-!
Branch characterizations of the receiving step, for any extraction
outcome.
-/

theorem processReceiving_err (extract : ExtractFn) (st : PopState) (proj : Projection)
    (hl : (flattenSynapse proj).1.componentClass.linear = true)
    (he : extract (flattenSynapse proj).1.toProps proj.name = Except.error ()) :
    processReceiving extract st proj = { st with
      synapses := st.synapses ++ [⟨proj.name, (flattenSynapse proj).1, postConns proj⟩],
      exposures := (st.exposures ++
          (postConns proj).flatMap (exposePorts [("post", cell_dyn_name)])) ++
        (preConns proj).flatMap
          (exposePorts [("post", cell_dyn_name), ("synapse", proj.name)]),
      connection_groups := (preConns proj).foldl
        (fun m pc => dictInsert m (groupName proj pc)
          (mkConnGroup proj
            ([("post", cell_dyn_name), ("synapse", proj.name)] ++
              [("pre", cell_dyn_name)]) pc))
        st.connection_groups } := by
  simp [processReceiving, hl, he]

theorem processReceiving_nonlin (extract : ExtractFn) (st : PopState) (proj : Projection)
    (hl : (flattenSynapse proj).1.componentClass.linear = false) :
    processReceiving extract st proj = { st with
      synapses := st.synapses ++ [⟨proj.name, (flattenSynapse proj).1, postConns proj⟩],
      exposures := (st.exposures ++
          (postConns proj).flatMap (exposePorts [("post", cell_dyn_name)])) ++
        (preConns proj).flatMap (exposePorts [("post", cell_dyn_name)]),
      connection_groups := (preConns proj).foldl
        (fun m pc => dictInsert m (groupName proj pc)
          (mkConnGroup proj
            ([("post", cell_dyn_name)] ++ [("pre", cell_dyn_name)]) pc))
        st.connection_groups } := by
  simp [processReceiving, hl]

/-- C6 counterexample: two different projections of the same network
derive the same connection-group name; the pass succeeds with no
NameCollisionError and its output map holds only the group of the
later projection, the one of the earlier projection having been
silently overwritten. -/
theorem c6_counterexample_silent_overwrite :
    resOk (flattenNetwork extractLiteral netC6) = true ∧
    resGroups (flattenNetwork extractLiteral netC6) =
      [(gname6, ⟨gname6, true, "A0", "B", "y__cell", "z__cell",
        Connectivity.rule "R2", ⟨3, "ms"⟩⟩)] := by
  constructor
  · rfl
  · rfl

/-- C6 amended: when a projection derives a connection-group name, the
insertion into the output map silently replaces any earlier binding of
that name, whatever state the map is in, and the processing never
fails; the resulting entry is the group of the later write. -/
theorem c6_overwrite_semantics (extract : ExtractFn) (st : PopState)
    (proj : Projection) (k : String) (pc : PortConnection)
    (h : (preConns proj).filter (fun pc => decide (groupName proj pc = k)) = [pc]) :
    alookup k (processReceiving extract st proj).connection_groups =
      some (mkConnGroup proj (recvRole2name proj ++ [("pre", cell_dyn_name)]) pc) := by
  rw [processReceiving_groups]
  exact alookup_foldl_dictInsert_unique _ _ _ _ _ _ h

/-- C6 witness: processing the second colliding projection on top of
the state left by the first one rebinds the shared name to the group
of the second projection. -/
theorem c6_overwrite_semantics_witness :
    ((preConns projP2).filter (fun pc => decide (groupName projP2 pc = gname6)) =
      [⟨"pre", "post", "y", "z", "event"⟩]) ∧
    alookup gname6
        (processReceiving extractLiteral
          (processReceiving extractLiteral (initState popTgt6 []) projP1)
          projP2).connection_groups =
      some (mkConnGroup projP2 (recvRole2name projP2 ++ [("pre", cell_dyn_name)])
        ⟨"pre", "post", "y", "z", "event"⟩) :=
  ⟨by decide,
   c6_overwrite_semantics extractLiteral
     (processReceiving extractLiteral (initState popTgt6 []) projP1) projP2 gname6
     ⟨"pre", "post", "y", "z", "event"⟩ (by decide)⟩

/-!
The reserved-name check of the orchestrator.
-/

theorem flattenPops_cell_name_err (extract : ExtractFn) (net : NetworkModel)
    (pop : Population) (proj : Projection)
    (hproj : proj ∈ receivingOf net pop) (hname : proj.name = cell_dyn_name) :
    ∀ (l : List Population) (arrays : List (String × ComponentArrayModel))
      (groups : List (String × ConnGroup)), pop ∈ l →
      resOk (flattenPops extract net l arrays groups) = false := by
  intro l
  induction l with
  | nil => intro arrays groups h; simp at h
  | cons p t ih =>
    intro arrays groups hmem
    by_cases hc : (receivingOf net p).any (fun q => decide (q.name = cell_dyn_name))
    · simp only [flattenPops, hc]
      rfl
    · rcases List.mem_cons.mp hmem with rfl | hmem'
      · exact absurd (List.any_eq_true.mpr ⟨proj, hproj, by simp [hname]⟩) hc
      · simp only [flattenPops, hc]
        simp only [Bool.false_eq_true, if_false]
        exact ih _ _ hmem'

/-- C8 counterexample: a network with a population named identically
to a projection flattens successfully, producing both component
arrays; no StructuralError is raised. -/
theorem c8_counterexample_pop_proj_same_name :
    resOk (flattenNetwork extractLiteral netC8) = true ∧
    (resArrays (flattenNetwork extractLiteral netC8)).length = 2 := by
  constructor
  · rfl
  · rfl

/-- C8 amended: the only structural name check of the pass rejects a
receiving projection named with the reserved cell-dynamics role name,
aborting the whole pass with a fatal error so that no output map is
produced; a population named identically to a projection is never
checked. -/
theorem c8_reserved_name_rejected (extract : ExtractFn) (net : NetworkModel)
    (pop : Population) (proj : Projection) (hpop : pop ∈ net.populations)
    (hproj : proj ∈ receivingOf net pop) (hname : proj.name = cell_dyn_name) :
    resOk (flattenNetwork extract net) = false :=
  flattenPops_cell_name_err extract net pop proj hproj hname
    net.populations [] [] hpop

/-- C8 witness: the network whose population receives a projection
named cell aborts. -/
theorem c8_reserved_name_rejected_witness :
    ((⟨"B", 2, ⟨"cellD", trivCC, []⟩⟩ : Population) ∈ netCellName.populations ∧
      projCell ∈ receivingOf netCellName ⟨"B", 2, ⟨"cellD", trivCC, []⟩⟩ ∧
      projCell.name = cell_dyn_name) ∧
    resOk (flattenNetwork extractLiteral netCellName) = false :=
  ⟨⟨by decide, by decide, by decide⟩,
   c8_reserved_name_rejected extractLiteral netCellName
     ⟨"B", 2, ⟨"cellD", trivCC, []⟩⟩ projCell (by decide) (by decide) (by decide)⟩

/-- C10: the error handling of the embedding step is not atomic with
respect to the role-to-name map: for any extraction outcome that
reports the linear synapse unflattenable, the projection name has
already been bound to the synapse role, so the pre-side exposures and
the namespacing of the connection-group destination port of the
externalized synapse differ from those of the same synapse rejected
directly by the linearity check. -/
theorem c10_nonatomic_role2name (extract : ExtractFn)
    (h : extract (flattenSynapse projLinVarying).1.toProps projLinVarying.name =
      Except.error ()) :
    ((⟨"A", "q__psr"⟩ : Exposure) ∈
      (processReceiving extract (initState popTgt []) projLinVarying).exposures) ∧
    ((⟨"A", "q__psr"⟩ : Exposure) ∉
      (processReceiving extract (initState popTgt []) projNonlin).exposures) ∧
    ((alookup "A__pre__spike__synapse__q__psr"
        (processReceiving extract (initState popTgt []) projLinVarying).connection_groups).map
      ConnGroup.destination_port = some "q__psr__A") ∧
    ((alookup "A__pre__spike__synapse__q__psr"
        (processReceiving extract (initState popTgt []) projNonlin).connection_groups).map
      ConnGroup.destination_port = some "q__psr") ∧
    ((⟨"A", (flattenSynapse projLinVarying).1, []⟩ : SynapseProps) ∈
      (processReceiving extract (initState popTgt []) projLinVarying).synapses) ∧
    ((⟨"A", (flattenSynapse projNonlin).1, []⟩ : SynapseProps) ∈
      (processReceiving extract (initState popTgt []) projNonlin).synapses) := by
  have hA := processReceiving_err extract (initState popTgt []) projLinVarying rfl h
  have hB := processReceiving_nonlin extract (initState popTgt []) projNonlin rfl
  rw [hA, hB]
  decide

/-- C10 witness: instantiated with the always-failing extraction
outcome. -/
theorem c10_nonatomic_role2name_witness :
    (extractFail (flattenSynapse projLinVarying).1.toProps projLinVarying.name =
      Except.error ()) ∧
    ((⟨"A", "q__psr"⟩ : Exposure) ∈
      (processReceiving extractFail (initState popTgt []) projLinVarying).exposures) ∧
    ((⟨"A", "q__psr"⟩ : Exposure) ∉
      (processReceiving extractFail (initState popTgt []) projNonlin).exposures) :=
  ⟨rfl,
   (c10_nonatomic_role2name extractFail rfl).1,
   (c10_nonatomic_role2name extractFail rfl).2.1⟩

/-!
Role lemmas and the treatment of invalid roles by the synapse
flattener.
-/

theorem isSynRole_iff {r : String} :
    isSynRole r = true ↔ (r = "response" ∨ r = "plasticity") := by
  simp [isSynRole]

theorem isCellRole_iff {r : String} :
    isCellRole r = true ↔ (r = "pre" ∨ r = "post") := by
  simp [isCellRole]

theorem isSynRole_valid {r : String} (h : isSynRole r = true) :
    decide (validRole r) = true := by
  rcases isSynRole_iff.mp h with rfl | rfl <;> decide

theorem isCellRole_valid {r : String} (h : isCellRole r = true) :
    decide (validRole r) = true := by
  rcases isCellRole_iff.mp h with rfl | rfl <;> decide

theorem filter_filter_of_imp {α : Type} (p q : α → Bool)
    (h : ∀ a, p a = true → q a = true) :
    ∀ l : List α, (l.filter q).filter p = l.filter p := by
  intro l
  induction l with
  | nil => rfl
  | cons a t ih =>
    by_cases hq : q a = true
    · rw [List.filter_cons_of_pos hq]
      by_cases hp : p a = true
      · rw [List.filter_cons_of_pos hp, List.filter_cons_of_pos hp, ih]
      · rw [List.filter_cons_of_neg hp, List.filter_cons_of_neg hp, ih]
    · have hp : ¬p a = true := fun hpa => hq (h a hpa)
      rw [List.filter_cons_of_neg hq, List.filter_cons_of_neg hp, ih]

/-- The role-validity filter used to state that invalid-role
connections are ignored. -/
theorem filter_valid_roles (proj : Projection) (f : PortConnection → Bool)
    (h : ∀ pc, f pc = true →
      (decide (validRole pc.sender_role) && decide (validRole pc.receiver_role)) = true) :
    (proj.port_connections.filter
        (fun pc => decide (validRole pc.sender_role) &&
          decide (validRole pc.receiver_role))).filter f =
      proj.port_connections.filter f :=
  filter_filter_of_imp f _ h proj.port_connections

/-- C7 counterexample: a projection carrying a port connection whose
receiver role is outside the closed role set flattens without any
error, and the connection appears in none of the partitions: it is
dropped from the synapse internals, the exposures and the rewritten
connection list. -/
theorem c7_counterexample_invalid_role_dropped :
    flattenSynapse projBadRole =
      (⟨"c_syn", [("psr", trivDyn), ("pls", trivDyn)], [], []⟩, []) := by
  decide

/-- C7 amended: synapse flattening never fails; its output is
unchanged when the connections touching a role outside
pre, post, response, plasticity are removed from the projection, so
such connections are silently ignored rather than reported. -/
theorem c7_invalid_roles_ignored (proj : Projection) :
    flattenSynapse (validOnly proj) = flattenSynapse proj := by
  have hconn : (validOnly proj).port_connections =
      proj.port_connections.filter
        (fun pc => decide (validRole pc.sender_role) &&
          decide (validRole pc.receiver_role)) := rfl
  have hint : internalConns (validOnly proj) = internalConns proj := by
    rw [internalConns, internalConns, hconn, filter_valid_roles]
    intro pc hpc
    rcases (Bool.and_eq_true _ _ ▸ hpc : _ ∧ _) with ⟨h1, h2⟩
    rw [isSynRole_valid h1, isSynRole_valid h2]
    rfl
  have hrecv : receiveConns (validOnly proj) = receiveConns proj := by
    rw [receiveConns, receiveConns, hconn, filter_valid_roles]
    intro pc hpc
    rcases (Bool.and_eq_true _ _ ▸ hpc : _ ∧ _) with ⟨h1, h2⟩
    rw [isCellRole_valid h1, isSynRole_valid h2]
    rfl
  have hsend : sendConns (validOnly proj) = sendConns proj := by
    rw [sendConns, sendConns, hconn, filter_valid_roles]
    intro pc hpc
    rcases (Bool.and_eq_true _ _ ▸ hpc : _ ∧ _) with ⟨h1, h2⟩
    rw [isSynRole_valid h1, isCellRole_valid h2]
    rfl
  have hpass : passConns (validOnly proj) = passConns proj := by
    rw [passConns, passConns, hconn, filter_valid_roles]
    intro pc hpc
    rcases (Bool.and_eq_true _ _ ▸ hpc : _ ∧ _) with ⟨h1, h2⟩
    rw [isCellRole_valid h1, isCellRole_valid h2]
    rfl
  rw [flattenSynapse, flattenSynapse, synExps, synExps, hint, hrecv, hsend, hpass]
  rfl

theorem getD_synRole2name {r : String} (h : r = "response" ∨ r = "plasticity") :
    (alookup r synRole2name).getD r = specSynName r := by
  rcases h with rfl | rfl <;> rfl

/-- C5: the flattened synapse of a projection is the MultiComponent
named after the projection with suffix _syn, its sub-components are
the response dynamics under role name psr and the plasticity dynamics
under role name pls, its internal connections are exactly the
localized projection connections with both endpoints in response or
plasticity, its exposures derive from the outgoing and incoming
connection classes, and the rewritten connection list replaces every
response or plasticity endpoint by the single synapse role with a
namespaced port while connections between pre and post pass through
unchanged. -/
theorem c5_flatten_synapse_shape (proj : Projection) :
    (flattenSynapse proj).1.name = proj.name ++ "_syn" ∧
    (flattenSynapse proj).1.sub_components =
      [("psr", proj.response), ("pls", proj.plasticity)] ∧
    (∀ lc, lc ∈ (flattenSynapse proj).1.port_connections ↔
      ∃ pc ∈ proj.port_connections,
        (pc.sender_role = "response" ∨ pc.sender_role = "plasticity") ∧
        (pc.receiver_role = "response" ∨ pc.receiver_role = "plasticity") ∧
        lc = ⟨specSynName pc.sender_role, specSynName pc.receiver_role,
          pc.send_port, pc.receive_port, pc.communicates⟩) ∧
    (∀ e, e ∈ (flattenSynapse proj).1.port_exposures ↔
      ((∃ pc ∈ proj.port_connections,
        (pc.sender_role = "response" ∨ pc.sender_role = "plasticity") ∧
        (pc.receiver_role = "pre" ∨ pc.receiver_role = "post") ∧
        e = ⟨specSynName pc.sender_role, pc.send_port⟩) ∨
      (∃ pc ∈ proj.port_connections,
        (pc.sender_role = "pre" ∨ pc.sender_role = "post") ∧
        (pc.receiver_role = "response" ∨ pc.receiver_role = "plasticity") ∧
        e = ⟨specSynName pc.receiver_role, pc.receive_port⟩))) ∧
    (∀ pc', pc' ∈ (flattenSynapse proj).2 ↔
      ((∃ pc ∈ proj.port_connections,
        (pc.sender_role = "pre" ∨ pc.sender_role = "post") ∧
        (pc.receiver_role = "response" ∨ pc.receiver_role = "plasticity") ∧
        pc' = { pc with receiver_role := "synapse", receive_port := append_namespace pc.receive_port (specSynName pc.receiver_role) }) ∨
      (∃ pc ∈ proj.port_connections,
        (pc.sender_role = "response" ∨ pc.sender_role = "plasticity") ∧
        (pc.receiver_role = "pre" ∨ pc.receiver_role = "post") ∧
        pc' = { pc with sender_role := "synapse", send_port := append_namespace pc.send_port (specSynName pc.sender_role) }) ∨
      (pc' ∈ proj.port_connections ∧
        (pc'.sender_role = "pre" ∨ pc'.sender_role = "post") ∧
        (pc'.receiver_role = "pre" ∨ pc'.receiver_role = "post")))) := by
  refine ⟨rfl, rfl, ?_, ?_, ?_⟩
  · intro lc
    constructor
    · intro h
      rcases List.mem_map.mp h with ⟨pc, hpc, he⟩
      have hfil := List.mem_filter.mp hpc
      rcases (Bool.and_eq_true _ _ ▸ hfil.2 : _ ∧ _) with ⟨h1, h2⟩
      have hs := isSynRole_iff.mp h1
      have hr := isSynRole_iff.mp h2
      refine ⟨pc, hfil.1, hs, hr, ?_⟩
      rw [← he, getD_synRole2name hs, getD_synRole2name hr]
    · rintro ⟨pc, hpc, hs, hr, rfl⟩
      apply List.mem_map.mpr
      refine ⟨pc, List.mem_filter.mpr ⟨hpc, ?_⟩, ?_⟩
      · rw [Bool.and_eq_true, isSynRole_iff, isSynRole_iff]
        exact ⟨hs, hr⟩
      · rw [getD_synRole2name hs, getD_synRole2name hr]
  · intro e
    have hshape : (flattenSynapse proj).1.port_exposures =
        (sendConns proj).map (fun pc =>
          ⟨(alookup pc.sender_role synRole2name).getD pc.sender_role, pc.send_port⟩) ++
        (receiveConns proj).map (fun pc =>
          ⟨(alookup pc.receiver_role synRole2name).getD pc.receiver_role,
            pc.receive_port⟩) := rfl
    rw [hshape]
    constructor
    · intro h
      rcases List.mem_append.mp h with h | h
      · rcases List.mem_map.mp h with ⟨pc, hpc, he⟩
        have hfil := List.mem_filter.mp hpc
        rcases (Bool.and_eq_true _ _ ▸ hfil.2 : _ ∧ _) with ⟨h1, h2⟩
        have hs := isSynRole_iff.mp h1
        have hr := isCellRole_iff.mp h2
        exact Or.inl ⟨pc, hfil.1, hs, hr, by rw [← he, getD_synRole2name hs]⟩
      · rcases List.mem_map.mp h with ⟨pc, hpc, he⟩
        have hfil := List.mem_filter.mp hpc
        rcases (Bool.and_eq_true _ _ ▸ hfil.2 : _ ∧ _) with ⟨h1, h2⟩
        have hs := isCellRole_iff.mp h1
        have hr := isSynRole_iff.mp h2
        exact Or.inr ⟨pc, hfil.1, hs, hr, by rw [← he, getD_synRole2name hr]⟩
    · rintro (⟨pc, hpc, hs, hr, rfl⟩ | ⟨pc, hpc, hs, hr, rfl⟩)
      · apply List.mem_append.mpr
        left
        apply List.mem_map.mpr
        refine ⟨pc, List.mem_filter.mpr ⟨hpc, ?_⟩, ?_⟩
        · rw [Bool.and_eq_true, isSynRole_iff, isCellRole_iff]
          exact ⟨hs, hr⟩
        · rw [getD_synRole2name hs]
      · apply List.mem_append.mpr
        right
        apply List.mem_map.mpr
        refine ⟨pc, List.mem_filter.mpr ⟨hpc, ?_⟩, ?_⟩
        · rw [Bool.and_eq_true, isCellRole_iff, isSynRole_iff]
          exact ⟨hs, hr⟩
        · rw [getD_synRole2name hr]
  · intro pc'
    have hshape : (flattenSynapse proj).2 =
        (receiveConns proj).map (fun pc =>
          { pc with receiver_role := "synapse", receive_port := append_namespace pc.receive_port ((alookup pc.receiver_role synRole2name).getD pc.receiver_role) }) ++
        (sendConns proj).map (fun pc =>
          { pc with sender_role := "synapse", send_port := append_namespace pc.send_port ((alookup pc.sender_role synRole2name).getD pc.sender_role) }) ++
        passConns proj := rfl
    rw [hshape]
    constructor
    · intro h
      rcases List.mem_append.mp h with h | h
      · rcases List.mem_append.mp h with h | h
        · rcases List.mem_map.mp h with ⟨pc, hpc, he⟩
          have hfil := List.mem_filter.mp hpc
          rcases (Bool.and_eq_true _ _ ▸ hfil.2 : _ ∧ _) with ⟨h1, h2⟩
          have hs := isCellRole_iff.mp h1
          have hr := isSynRole_iff.mp h2
          exact Or.inl ⟨pc, hfil.1, hs, hr, by rw [← he, getD_synRole2name hr]⟩
        · rcases List.mem_map.mp h with ⟨pc, hpc, he⟩
          have hfil := List.mem_filter.mp hpc
          rcases (Bool.and_eq_true _ _ ▸ hfil.2 : _ ∧ _) with ⟨h1, h2⟩
          have hs := isSynRole_iff.mp h1
          have hr := isCellRole_iff.mp h2
          exact Or.inr (Or.inl ⟨pc, hfil.1, hs, hr,
            by rw [← he, getD_synRole2name hs]⟩)
      · have hfil := List.mem_filter.mp h
        rcases (Bool.and_eq_true _ _ ▸ hfil.2 : _ ∧ _) with ⟨h1, h2⟩
        exact Or.inr (Or.inr ⟨hfil.1, isCellRole_iff.mp h1, isCellRole_iff.mp h2⟩)
    · rintro (⟨pc, hpc, hs, hr, rfl⟩ | ⟨pc, hpc, hs, hr, rfl⟩ | ⟨hmem, hs, hr⟩)
      · apply List.mem_append.mpr
        left
        apply List.mem_append.mpr
        left
        apply List.mem_map.mpr
        refine ⟨pc, List.mem_filter.mpr ⟨hpc, ?_⟩, ?_⟩
        · rw [Bool.and_eq_true, isCellRole_iff, isSynRole_iff]
          exact ⟨hs, hr⟩
        · rw [getD_synRole2name hr]
      · apply List.mem_append.mpr
        left
        apply List.mem_append.mpr
        right
        apply List.mem_map.mpr
        refine ⟨pc, List.mem_filter.mpr ⟨hpc, ?_⟩, ?_⟩
        · rw [Bool.and_eq_true, isSynRole_iff, isCellRole_iff]
          exact ⟨hs, hr⟩
        · rw [getD_synRole2name hs]
      · apply List.mem_append.mpr
        right
        apply List.mem_filter.mpr
        refine ⟨hmem, ?_⟩
        rw [Bool.and_eq_true, isCellRole_iff, isCellRole_iff]
        exact ⟨hs, hr⟩

/-!
The sending-projection loop only adds pre-side cell exposures.
-/

theorem exposePorts_pre (c : String) (pc : PortConnection) :
    exposePorts [("pre", c)] pc =
      (if pc.sender_role = "pre" then [⟨c, pc.send_port⟩] else []) ++
      (if pc.receiver_role = "pre" then [⟨c, pc.receive_port⟩] else []) := by
  rw [exposePorts]
  congr 1
  · by_cases hs : pc.sender_role = "pre"
    · have ha : alookup pc.sender_role [("pre", c)] = some c := by rw [hs]; rfl
      rw [ha, if_pos hs]
    · have ha : alookup pc.sender_role [("pre", c)] = none := by
        rw [alookup, if_neg (fun he => hs he.symm)]
        rfl
      rw [ha, if_neg hs]
  · by_cases hr : pc.receiver_role = "pre"
    · have ha : alookup pc.receiver_role [("pre", c)] = some c := by rw [hr]; rfl
      rw [ha, if_pos hr]
    · have ha : alookup pc.receiver_role [("pre", c)] = none := by
        rw [alookup, if_neg (fun he => hr he.symm)]
        rfl
      rw [ha, if_neg hr]

theorem isSynRole_ne_pre {r : String} (h : isSynRole r = true) : r ≠ "pre" := by
  rcases isSynRole_iff.mp h with rfl | rfl <;> decide

theorem exposePorts_pre_rewriteR (c : String) (pc : PortConnection) (x : String)
    (hr : pc.receiver_role ≠ "pre") :
    exposePorts [("pre", c)] { pc with receiver_role := "synapse", receive_port := x } =
      exposePorts [("pre", c)] pc := by
  rw [exposePorts_pre, exposePorts_pre]
  simp [hr]

theorem exposePorts_pre_rewriteS (c : String) (pc : PortConnection) (x : String)
    (hs : pc.sender_role ≠ "pre") :
    exposePorts [("pre", c)] { pc with sender_role := "synapse", send_port := x } =
      exposePorts [("pre", c)] pc := by
  rw [exposePorts_pre, exposePorts_pre]
  simp [hs]

theorem valid_not_cell_syn {r : String} (hv : validRole r)
    (hc : ¬isCellRole r = true) : isSynRole r = true := by
  rcases hv with rfl | rfl | rfl | rfl
  · exact absurd (by decide) hc
  · exact absurd (by decide) hc
  · decide
  · decide

theorem mem_sending_exposures_iff (proj : Projection)
    (hv : ∀ pc ∈ proj.port_connections, validRole pc.sender_role ∧ validRole pc.receiver_role) :
    ∀ e, e ∈ (flattenSynapse proj).2.flatMap (exposePorts [("pre", cell_dyn_name)]) ↔
      e ∈ rawPreExposures proj := by
  intro e
  rw [rawPreExposures]
  constructor
  · intro hmem
    rcases List.mem_flatMap.mp hmem with ⟨pc', hpc', he⟩
    rcases List.mem_append.mp hpc' with h1 | hC
    · rcases List.mem_append.mp h1 with hA | hB
      · rcases List.mem_map.mp hA with ⟨pc, hpc, rfl⟩
        have hfil := List.mem_filter.mp hpc
        rcases (Bool.and_eq_true _ _ ▸ hfil.2 : _ ∧ _) with ⟨_, h2⟩
        rw [exposePorts_pre_rewriteR _ _ _ (isSynRole_ne_pre h2)] at he
        exact List.mem_flatMap.mpr ⟨pc, hfil.1, he⟩
      · rcases List.mem_map.mp hB with ⟨pc, hpc, rfl⟩
        have hfil := List.mem_filter.mp hpc
        rcases (Bool.and_eq_true _ _ ▸ hfil.2 : _ ∧ _) with ⟨h1', _⟩
        rw [exposePorts_pre_rewriteS _ _ _ (isSynRole_ne_pre h1')] at he
        exact List.mem_flatMap.mpr ⟨pc, hfil.1, he⟩
    · have hfil := List.mem_filter.mp hC
      exact List.mem_flatMap.mpr ⟨pc', hfil.1, he⟩
  · intro hmem
    rcases List.mem_flatMap.mp hmem with ⟨pc, hpc, he⟩
    rcases hv pc hpc with ⟨hvs, hvr⟩
    apply List.mem_flatMap.mpr
    by_cases hcs : isCellRole pc.sender_role = true
    · by_cases hcr : isCellRole pc.receiver_role = true
      · refine ⟨pc, ?_, he⟩
        apply List.mem_append.mpr
        right
        exact List.mem_filter.mpr ⟨hpc, by rw [Bool.and_eq_true]; exact ⟨hcs, hcr⟩⟩
      · have hsr := valid_not_cell_syn hvr hcr
        refine ⟨{ pc with receiver_role := "synapse", receive_port := append_namespace pc.receive_port ((alookup pc.receiver_role synRole2name).getD pc.receiver_role) }, ?_, ?_⟩
        · apply List.mem_append.mpr
          left
          apply List.mem_append.mpr
          left
          apply List.mem_map.mpr
          exact ⟨pc, List.mem_filter.mpr ⟨hpc,
            by rw [Bool.and_eq_true]; exact ⟨hcs, hsr⟩⟩, rfl⟩
        · rw [exposePorts_pre_rewriteR _ _ _ (isSynRole_ne_pre hsr)]
          exact he
    · have hss := valid_not_cell_syn hvs hcs
      by_cases hcr : isCellRole pc.receiver_role = true
      · refine ⟨{ pc with sender_role := "synapse", send_port := append_namespace pc.send_port ((alookup pc.sender_role synRole2name).getD pc.sender_role) }, ?_, ?_⟩
        · apply List.mem_append.mpr
          left
          apply List.mem_append.mpr
          right
          apply List.mem_map.mpr
          exact ⟨pc, List.mem_filter.mpr ⟨hpc,
            by rw [Bool.and_eq_true]; exact ⟨hss, hcr⟩⟩, rfl⟩
        · rw [exposePorts_pre_rewriteS _ _ _ (isSynRole_ne_pre hss)]
          exact he
      · have hsr := valid_not_cell_syn hvr hcr
        rw [exposePorts_pre] at he
        rw [if_neg (isSynRole_ne_pre hss), if_neg (isSynRole_ne_pre hsr)] at he
        simp at he

/-- C9: processing a sending projection changes nothing but the
exposures of the population state, and the exposures it adds are
exactly the pre-side cell exposures that are computable directly from
the raw port connections of the projection, without synapse
flattening; every added exposure is a cell exposure. -/
theorem c9_sending_only_pre_exposures (st : PopState) (proj : Projection)
    (hv : ∀ pc ∈ proj.port_connections,
      validRole pc.sender_role ∧ validRole pc.receiver_role) :
    (processSending st proj).sub_components = st.sub_components ∧
    (processSending st proj).internal_conns = st.internal_conns ∧
    (processSending st proj).synapses = st.synapses ∧
    (processSending st proj).connection_property_sets = st.connection_property_sets ∧
    (processSending st proj).connection_groups = st.connection_groups ∧
    (∀ e, e ∈ (processSending st proj).exposures ↔
      e ∈ st.exposures ∨ e ∈ rawPreExposures proj) ∧
    (∀ e ∈ rawPreExposures proj, e.component = cell_dyn_name) := by
  refine ⟨rfl, rfl, rfl, rfl, rfl, ?_, ?_⟩
  · intro e
    have hexp : (processSending st proj).exposures =
        st.exposures ++ (flattenSynapse proj).2.flatMap
          (exposePorts [("pre", cell_dyn_name)]) := rfl
    rw [hexp]
    rw [List.mem_append]
    rw [mem_sending_exposures_iff proj hv e]
  · intro e he
    rcases List.mem_flatMap.mp he with ⟨pc, _, hee⟩
    rw [exposePorts_pre] at hee
    rcases List.mem_append.mp hee with h | h
    · by_cases hs : pc.sender_role = "pre"
      · rw [if_pos hs] at h
        obtain rfl := List.mem_singleton.mp h
        rfl
      · rw [if_neg hs] at h
        simp at h
    · by_cases hr : pc.receiver_role = "pre"
      · rw [if_pos hr] at h
        obtain rfl := List.mem_singleton.mp h
        rfl
      · rw [if_neg hr] at h
        simp at h

/-- C9 witness: the concrete sending projection with one event
connection from pre to response exposes only the cell spike port. -/
theorem c9_sending_only_pre_exposures_witness :
    (∀ pc ∈ projLinVarying.port_connections,
      validRole pc.sender_role ∧ validRole pc.receiver_role) ∧
    (processSending (initState popTgt []) projLinVarying).sub_components =
      (initState popTgt [] : PopState).sub_components ∧
    ((⟨cell_dyn_name, "spike"⟩ : Exposure) ∈
        (processSending (initState popTgt []) projLinVarying).exposures ↔
      (⟨cell_dyn_name, "spike"⟩ : Exposure) ∈
          (initState popTgt [] : PopState).exposures ∨
        (⟨cell_dyn_name, "spike"⟩ : Exposure) ∈ rawPreExposures projLinVarying) :=
  ⟨by decide,
   (c9_sending_only_pre_exposures (initState popTgt []) projLinVarying (by decide)).1,
   (c9_sending_only_pre_exposures (initState popTgt []) projLinVarying
     (by decide)).2.2.2.2.2.1 ⟨cell_dyn_name, "spike"⟩⟩

end Pype9
